import Mathlib

/-!
# Verification of the audio_visualizer core

Shallow embedding of the two core components of the repository:

* the audio feature extractor (`src/client/src/utils/audioParse.js`,
  reproduced at the bottom of `MikeDropViz.jsx`): `processAudioData`,
  `findPeaks`, `averageRange`, `detectBeat`;
* the vertex motion engine and edge styling of
  `src/client/src/components/MikeDropViz.jsx`: `updateVertices`
  (here `tickVertex` / `tickVertices` / `tick`) and `getEdgeStyle`.

Modelling conventions:

* JavaScript numbers are modelled as exact rationals `ℚ`; decimal literals
  such as `0.02` denote the exact rational.  Timestamps (`Date.now()`,
  milliseconds) are modelled as `ℤ`.
* The module-level beat-detector globals (`lastBeatTime`, `beatHistory`)
  are modelled as an explicit `BeatState` threaded through each call, as
  the specification requires.
* Transcendental float operations (`Math.sin`, `Math.cos`, `Math.PI`) have
  no exact rational counterpart; they are abstracted as an explicit
  `TrigOps` parameter.  No claim below depends on their values.
  Likewise `Math.pow (· , 1.5)` is an explicit parameter of
  `processAudioData`, and the Euclidean distance `Math.hypot` is passed to
  `getEdgeStyle` as a number `d` characterised by `0 ≤ d` and
  `d ^ 2 = distSq v1 v2`.
* Total division on `ℚ` returns `0` on a zero denominator where IEEE
  floats produce `NaN`; the `Option`-valued `meanJs` tracks exactly that
  `NaN` case for the error-handling analysis.
-/

/-- Rolling beat-detector state: the module-level globals `lastBeatTime`
and `beatHistory` of `audioParse.js`, made explicit. -/
structure BeatState where
  lastBeatTime : ℤ
  beatHistory : List ℚ
  deriving Repr, DecidableEq

/-- Arithmetic mean as computed by `arr.reduce((sum, val) => sum + val, 0) / arr.length`.
On an empty list the rational division `0 / 0` is `0`, where JS floats give `NaN`;
`meanJs` records that divergence. -/
def mean (l : List ℚ) : ℚ :=
  l.sum / (l.length : ℚ)

/-- JS-float mean with NaN tracking: `none` models the `NaN` produced by
`0 / 0` when the list is empty. -/
def meanJs (l : List ℚ) : Option ℚ :=
  if l.length = 0 then none else some (mean l)

/-- Embedding of `averageRange(data, start, end)`: mean of
`data.slice(start, end + 1)`. -/
def averageRange (data : List ℚ) (start stop : ℕ) : ℚ :=
  mean ((data.drop start).take (stop + 1 - start))

/-- Embedding of `normalizedData`: each byte divided by 255. -/
def normalizeData (audioData : List ℕ) : List ℚ :=
  audioData.map (fun (v : ℕ) => (v : ℚ) / 255)

/-- Low-band energy `currentEnergy = averageRange(data, 0, 10)` used by the
beat detector. -/
def currentEnergy (data : List ℚ) : ℚ :=
  averageRange data 0 10

/-- Embedding of `beatHistory.push(e); if (beatHistory.length > 8) beatHistory.shift()`. -/
def pushHistory (hist : List ℚ) (e : ℚ) : List ℚ :=
  let h := hist ++ [e]
  if h.length > 8 then h.tail else h

/-- Minimum 250 ms between beats (`minBeatInterval`). -/
def minBeatInterval : ℤ := 250

/-- Embedding of `detectBeat(data)`: pushes the current low-band energy on
the rolling history, then reports a beat (and stamps `lastBeatTime := now`)
exactly when the energy exceeds 1.5 times the rolling mean and more than
250 ms have passed since the last beat. -/
def detectBeat (data : List ℚ) (st : BeatState) (now : ℤ) : Bool × BeatState :=
  let e := currentEnergy data
  let hist := pushHistory st.beatHistory e
  let avg := mean hist
  if e > avg * 1.5 ∧ now - st.lastBeatTime > minBeatInterval then
    (true, ⟨now, hist⟩)
  else
    (false, ⟨st.lastBeatTime, hist⟩)

/-- Default detector call result, used only as a `getD` fallback. -/
def dB : Bool × BeatState := (false, ⟨0, []⟩)

/-- Default call (snapshot, timestamp), used only as a `getD` fallback. -/
def dC : List ℚ × ℤ := ([], 0)

/-- Run the beat detector over a sequence of calls, threading the state;
returns the flag and the post-call state for each call. -/
def detectRun : BeatState → List (List ℚ × ℤ) → List (Bool × BeatState)
  | _, [] => []
  | st, (d, t) :: rest =>
    let r := detectBeat d st t
    r :: detectRun r.2 rest

/-- States observed after each call of a run. -/
def runStates (st : BeatState) (calls : List (List ℚ × ℤ)) : List BeatState :=
  (detectRun st calls).map Prod.snd

/-- Embedding of `findPeaks(data)`: interior indices whose value strictly
exceeds both neighbours and 0.5, paired with their value, in index order. -/
def findPeaks (data : List ℚ) : List (ℕ × ℚ) :=
  ((List.range data.length).filter (fun i =>
    decide (0 < i ∧ i + 1 < data.length ∧
      data.getD (i - 1) 0 < data.getD i 0 ∧
      data.getD (i + 1) 0 < data.getD i 0 ∧
      (0.5 : ℚ) < data.getD i 0))).map (fun i => (i, data.getD i 0))

/-- Metrics object of `processAudioData`. -/
structure Metrics where
  amplitude : ℚ
  peaks : List (ℕ × ℚ)
  lowFreq : ℚ
  midFreq : ℚ
  highFreq : ℚ
  beatDetected : Bool
  deriving Repr, DecidableEq

/-- Visual-parameter object of `processAudioData`. -/
structure VisualParams where
  intensity : ℚ
  speed : ℚ
  colorIntensity : ℚ
  patternSize : ℚ
  complexity : ℚ
  deriving Repr, DecidableEq

/-- Return value of `processAudioData`. -/
structure AudioResult where
  waveform : List ℚ
  metrics : Metrics
  visualParams : VisualParams
  deriving Repr, DecidableEq

/-- Embedding of `processAudioData(audioData)`.  `pow15` abstracts the
float operation `Math.pow(· , 1.5)`; the beat-detector globals are the
explicit `st`/`now` arguments, and the mutated state is returned. -/
def processAudioData (pow15 : ℚ → ℚ) (audioData : List ℕ) (st : BeatState) (now : ℤ) :
    AudioResult × BeatState :=
  let normalizedData := normalizeData audioData
  let beat := detectBeat normalizedData st now
  let metrics : Metrics :=
    { amplitude := mean normalizedData
      peaks := findPeaks normalizedData
      lowFreq := averageRange normalizedData 0 10
      midFreq := averageRange normalizedData 11 100
      highFreq := averageRange normalizedData 101 255
      beatDetected := beat.1 }
  ({ waveform := normalizedData
     metrics := metrics
     visualParams :=
      { intensity := pow15 (metrics.amplitude * 2)
        speed := if metrics.beatDetected then 1.5 else 1.0
        colorIntensity := metrics.highFreq * 1.5
        patternSize := 1 + metrics.lowFreq * 0.5
        complexity := 1 + metrics.midFreq * 2 } }, beat.2)

/-- JavaScript `%` for a nonnegative dividend and positive divisor:
floor-based remainder, `a - m * ⌊a / m⌋`.  (JS `%` takes the dividend's
sign; every use in the source has a nonnegative dividend, where the two
agree.) -/
def jsMod (a m : ℚ) : ℚ :=
  a - m * ⌊a / m⌋

/-- Abstracted float trigonometry (`Math.sin`, `Math.cos`, `Math.PI`);
no claim depends on the values of these operations. -/
structure TrigOps where
  sin : ℚ → ℚ
  cos : ℚ → ℚ
  pi : ℚ

/-- One animated vertex of the visualization. -/
structure Vertex where
  x : ℚ
  y : ℚ
  vx : ℚ
  vy : ℚ
  phase : ℚ
  hue : ℚ
  amplitude : ℚ
  frequency : ℚ
  deriving Repr, DecidableEq

/-- Default vertex, used only as a `getD` fallback. -/
def v0 : Vertex := ⟨0, 0, 0, 0, 0, 0, 0, 0⟩

/-- User-set base parameters (the four bounded sliders). -/
structure Parameters where
  flowSpeed : ℚ
  colorSpeed : ℚ
  waveIntensity : ℚ
  patternSize : ℚ
  deriving Repr, DecidableEq

/-- Audio modulation multipliers applied to the base parameters. -/
structure AudioModulation where
  speedMod : ℚ
  intensityMod : ℚ
  sizeMod : ℚ
  deriving Repr, DecidableEq

/-- Ring-anchor x coordinate: `400 + cos(time*0.2 + i*π/12) * (200*effectiveSize)`. -/
def centerX (T : TrigOps) (time effectiveSize : ℚ) (i : ℕ) : ℚ :=
  400 + T.cos (time * 0.2 + (i : ℚ) * T.pi / 12) * (200 * effectiveSize)

/-- Ring-anchor y coordinate: `300 + sin(time*0.2 + i*π/12) * (200*effectiveSize)`. -/
def centerY (T : TrigOps) (time effectiveSize : ℚ) (i : ℕ) : ℚ :=
  300 + T.sin (time * 0.2 + (i : ℚ) * T.pi / 12) * (200 * effectiveSize)

/-- Flow-offset x: `sin(time*frequency + phase) * 100 * amplitude`. -/
def flowX (T : TrigOps) (time : ℚ) (v : Vertex) : ℚ :=
  T.sin (time * v.frequency + v.phase) * 100 * v.amplitude

/-- Flow-offset y: `cos(time*1.3*frequency + phase) * 100 * amplitude`. -/
def flowY (T : TrigOps) (time : ℚ) (v : Vertex) : ℚ :=
  T.cos (time * 1.3 * v.frequency + v.phase) * 100 * v.amplitude

/-- Wave-offset x: `isPlaying ? sin(waveTime + y*0.02) * 50 * effectiveIntensity : 0`. -/
def waveX (T : TrigOps) (isPlaying : Bool) (waveTime y effectiveIntensity : ℚ) : ℚ :=
  if isPlaying then T.sin (waveTime + y * 0.02) * 50 * effectiveIntensity else 0

/-- Wave-offset y: `isPlaying ? cos(waveTime + x*0.02) * 50 * effectiveIntensity : 0`. -/
def waveY (T : TrigOps) (isPlaying : Bool) (waveTime x effectiveIntensity : ℚ) : ℚ :=
  if isPlaying then T.cos (waveTime + x * 0.02) * 50 * effectiveIntensity else 0

/-- Per-vertex body of `updateVertices`: new position is ring anchor plus
flow plus wave; hue advances by `colorSpeed` modulo 360; phase advances by
`0.02 * effectiveSpeed`; all other fields are copied. -/
def tickVertex (T : TrigOps) (isPlaying : Bool) (frame : ℕ)
    (p : Parameters) (m : AudioModulation) (i : ℕ) (v : Vertex) : Vertex :=
  let effectiveSpeed := p.flowSpeed * m.speedMod
  let effectiveIntensity := p.waveIntensity * m.intensityMod
  let effectiveSize := p.patternSize * m.sizeMod
  let time := (frame : ℚ) * 0.02 * effectiveSpeed
  let waveTime := (frame : ℚ) * 0.01
  { v with
    x := centerX T time effectiveSize i + flowX T time v +
        waveX T isPlaying waveTime v.y effectiveIntensity
    y := centerY T time effectiveSize i + flowY T time v +
        waveY T isPlaying waveTime v.x effectiveIntensity
    hue := jsMod (v.hue + p.colorSpeed) 360
    phase := v.phase + 0.02 * effectiveSpeed }

/-- Index-aware map, mirroring `prev.map((vertex, i) => ...)` with the
offset `k` of the first element. -/
def mapWithIndex {α β : Type} (f : ℕ → α → β) : ℕ → List α → List β
  | _, [] => []
  | k, a :: rest => f k a :: mapWithIndex f (k + 1) rest

/-- Embedding of the `setVertices` update of `updateVertices`. -/
def tickVertices (T : TrigOps) (isPlaying : Bool) (frame : ℕ)
    (p : Parameters) (m : AudioModulation) (vs : List Vertex) : List Vertex :=
  mapWithIndex (tickVertex T isPlaying frame p m) 0 vs

/-- One full motion tick: update every vertex with the current frame
counter, then increment the frame counter. -/
def tick (T : TrigOps) (isPlaying : Bool) (p : Parameters) (m : AudioModulation) :
    ℕ × List Vertex → ℕ × List Vertex :=
  fun s => (s.1 + 1, tickVertices T isPlaying s.1 p m s.2)

/-- Startup vertex layout: 24 vertices on a circle of radius 200 around
(400, 300); `rand i k` abstracts the k-th `Math.random()` call made for
vertex `i`. -/
def initVertices (T : TrigOps) (rand : ℕ → ℕ → ℚ) : List Vertex :=
  (List.range 24).map (fun (i : ℕ) =>
    { x := 400 + T.cos ((i : ℚ) * T.pi / 12) * 200
      y := 300 + T.sin ((i : ℚ) * T.pi / 12) * 200
      vx := (rand i 0 - 0.5) * 2
      vy := (rand i 1 - 0.5) * 2
      phase := rand i 2 * T.pi * 2
      hue := (i : ℚ) * 15
      amplitude := 1 + rand i 3
      frequency := 0.5 + rand i 4 * 0.5 })

/-- Style of a drawn edge (`hsla` hue, its alpha, and stroke width). -/
structure EdgeStyle where
  strokeHue : ℚ
  opacity : ℚ
  strokeWidth : ℚ
  deriving Repr, DecidableEq

/-- Squared Euclidean distance between two vertices. -/
def distSq (v1 v2 : Vertex) : ℚ :=
  (v1.x - v2.x) ^ 2 + (v1.y - v2.y) ^ 2

/-- Edge opacity at distance `d`: `Math.max(0, Math.min(1, 1 - dist / 300))`. -/
def edgeOpacity (d : ℚ) : ℚ :=
  max 0 (min 1 (1 - d / 300))

/-- Embedding of `getEdgeStyle(v1, v2)`.  `d` stands for the float
`Math.hypot(v1.x - v2.x, v1.y - v2.y)` and is characterised in the
theorems by `0 ≤ d` and `d ^ 2 = distSq v1 v2`.  Opacity is
`clamp(1 - d/300, 0, 1)`; the edge is produced only when opacity exceeds
0.1, with width `max 1 (4 * opacity)`. -/
def getEdgeStyle (v1 v2 : Vertex) (d : ℚ) : Option EdgeStyle :=
  let opacity := edgeOpacity d
  if opacity > 0.1 then
    some { strokeHue := (v1.hue + v2.hue) / 2
           opacity := opacity
           strokeWidth := max 1 (4 * opacity) }
  else none

/- ### Beat detector lemmas -/

theorem detectBeat_fst_iff (data : List ℚ) (st : BeatState) (now : ℤ) :
    (detectBeat data st now).1 = true ↔
      currentEnergy data > mean (pushHistory st.beatHistory (currentEnergy data)) * 1.5 ∧
        now - st.lastBeatTime > minBeatInterval := by
  unfold detectBeat
  dsimp only
  split_ifs with h <;> simp [h]

theorem detectBeat_lastBeatTime (data : List ℚ) (st : BeatState) (now : ℤ) :
    (detectBeat data st now).2.lastBeatTime =
      if currentEnergy data > mean (pushHistory st.beatHistory (currentEnergy data)) * 1.5 ∧
          now - st.lastBeatTime > minBeatInterval
      then now else st.lastBeatTime := by
  unfold detectBeat
  dsimp only
  split_ifs with h <;> simp [h]

theorem detectBeat_beatHistory (data : List ℚ) (st : BeatState) (now : ℤ) :
    (detectBeat data st now).2.beatHistory =
      pushHistory st.beatHistory (currentEnergy data) := by
  unfold detectBeat
  dsimp only
  split_ifs <;> rfl

theorem pushHistory_length_le (hist : List ℚ) (e : ℚ) (h : hist.length ≤ 8) :
    (pushHistory hist e).length ≤ 8 := by
  unfold pushHistory
  dsimp only
  split_ifs with h1
  · simp only [List.length_tail, List.length_append, List.length_singleton]
    omega
  · simp only [List.length_append, List.length_singleton] at h1 ⊢
    omega

theorem detectBeat_length_le (data : List ℚ) (st : BeatState) (now : ℤ)
    (h : st.beatHistory.length ≤ 8) :
    (detectBeat data st now).2.beatHistory.length ≤ 8 := by
  rw [detectBeat_beatHistory]
  exact pushHistory_length_le _ _ h

theorem runStates_length_le (calls : List (List ℚ × ℤ)) (st : BeatState)
    (h : st.beatHistory.length ≤ 8) :
    ∀ s ∈ runStates st calls, s.beatHistory.length ≤ 8 := by
  induction calls generalizing st with
  | nil => simp [runStates, detectRun]
  | cons c rest ih =>
    obtain ⟨d, t⟩ := c
    intro s hs
    simp only [runStates, detectRun, List.map_cons, List.mem_cons] at hs
    rcases hs with hs | hs
    · rw [hs]
      exact detectBeat_length_le d st t h
    · exact ih (detectBeat d st t).2 (detectBeat_length_le d st t h) s hs

/-- Claim C1: a beat-detector call with a normalized snapshot returns
`true` and sets `lastBeatTime := now` exactly when, after pushing the
current low-band energy onto the bounded history, the energy exceeds 1.5
times the rolling mean and more than 250 ms have passed since the last
beat; in every other case it returns `false` and leaves `lastBeatTime`
unchanged. -/
theorem detectBeat_spec (data : List ℚ) (st : BeatState) (now : ℤ) :
    ((detectBeat data st now).1 = true ↔
      currentEnergy data > mean (pushHistory st.beatHistory (currentEnergy data)) * 1.5 ∧
        now - st.lastBeatTime > minBeatInterval) ∧
    (detectBeat data st now).2.lastBeatTime =
      (if currentEnergy data > mean (pushHistory st.beatHistory (currentEnergy data)) * 1.5 ∧
          now - st.lastBeatTime > minBeatInterval
       then now else st.lastBeatTime) := by
  exact ⟨detectBeat_fst_iff data st now, detectBeat_lastBeatTime data st now⟩

/-- Claim C3: starting from a detector state whose history holds at most 8
entries, the history observed after every call of any run still holds at
most 8 entries, and a push evicts the oldest entry (FIFO) exactly when the
queue already holds 8. -/
theorem beatHistory_bounded (st : BeatState) (calls : List (List ℚ × ℤ))
    (h8 : st.beatHistory.length ≤ 8) :
    (∀ s ∈ runStates st calls, s.beatHistory.length ≤ 8) ∧
    ∀ e, pushHistory st.beatHistory e =
      if st.beatHistory.length = 8
      then (st.beatHistory ++ [e]).tail
      else st.beatHistory ++ [e] := by
  refine ⟨runStates_length_le calls st h8, fun e => ?_⟩
  unfold pushHistory
  dsimp only
  have hl : (st.beatHistory ++ [e]).length = st.beatHistory.length + 1 := by simp
  by_cases hc : st.beatHistory.length = 8
  · have hgt : (st.beatHistory ++ [e]).length > 8 := by omega
    rw [if_pos hgt, if_pos hc]
  · have hle : ¬ (st.beatHistory ++ [e]).length > 8 := by omega
    rw [if_neg hle, if_neg hc]

theorem detectBeat_last_le (data : List ℚ) (st : BeatState) (now : ℤ) :
    st.lastBeatTime ≤ (detectBeat data st now).2.lastBeatTime := by
  unfold detectBeat minBeatInterval
  dsimp only
  split_ifs with h
  · have := h.2
    dsimp only
    omega
  · exact le_refl _

theorem detectBeat_true_now (data : List ℚ) (st : BeatState) (now : ℤ)
    (h : (detectBeat data st now).1 = true) :
    (detectBeat data st now).2.lastBeatTime = now ∧ now - st.lastBeatTime > 250 := by
  have hc := (detectBeat_fst_iff data st now).mp h
  refine ⟨?_, by have := hc.2; simpa [minBeatInterval] using this⟩
  rw [detectBeat_lastBeatTime, if_pos hc]

theorem detectRun_gap : ∀ (calls : List (List ℚ × ℤ)) (st : BeatState) (k : ℕ),
    k < calls.length →
    ((detectRun st calls).getD k dB).1 = true →
    (calls.getD k dC).2 - st.lastBeatTime > 250 := by
  intro calls
  induction calls with
  | nil => intro st k hk; simp at hk
  | cons c rest ih =>
    obtain ⟨d, t⟩ := c
    intro st k hk htrue
    cases k with
    | zero =>
      simp only [detectRun, List.getD_cons_zero] at htrue
      simpa using (detectBeat_true_now d st t htrue).2
    | succ n =>
      have h1 := ih (detectBeat d st t).2 n (by simpa using hk)
        (by simpa [detectRun] using htrue)
      have h2 := detectBeat_last_le d st t
      simp only [List.getD_cons_succ]
      omega

theorem detectRun_debounce : ∀ (calls : List (List ℚ × ℤ)) (st : BeatState) (i j : ℕ),
    i < j → j < calls.length →
    ((detectRun st calls).getD i dB).1 = true →
    ((detectRun st calls).getD j dB).1 = true →
    (calls.getD j dC).2 - (calls.getD i dC).2 > 250 := by
  intro calls
  induction calls with
  | nil => intro st i j hij hj; simp at hj
  | cons c rest ih =>
    obtain ⟨d, t⟩ := c
    intro st i j hij hj hi hjt
    obtain ⟨j', rfl⟩ : ∃ j', j = j' + 1 := ⟨j - 1, by omega⟩
    cases i with
    | zero =>
      simp only [detectRun, List.getD_cons_zero] at hi
      have hset := (detectBeat_true_now d st t hi).1
      have hgap := detectRun_gap rest (detectBeat d st t).2 j' (by simpa using hj)
        (by simpa [detectRun] using hjt)
      rw [hset] at hgap
      simpa using hgap
    | succ i' =>
      have := ih (detectBeat d st t).2 i' j' (by omega) (by simpa using hj)
        (by simpa [detectRun] using hi) (by simpa [detectRun] using hjt)
      simpa using this

/-- Claim C4: over any run of beat-detector calls with non-decreasing
timestamps, two calls that both report a beat are always separated by
strictly more than 250 ms, regardless of how often the energy-spike
condition holds. -/
theorem beat_debounce (st : BeatState) (calls : List (List ℚ × ℤ))
    (hmono : (calls.map Prod.snd).Pairwise (· ≤ ·))
    (i j : ℕ) (hij : i < j) (hj : j < calls.length)
    (hi : ((detectRun st calls).getD i dB).1 = true)
    (hjt : ((detectRun st calls).getD j dB).1 = true) :
    (calls.getD j dC).2 - (calls.getD i dC).2 > 250 :=
  detectRun_debounce calls st i j hij hj hi hjt

/-- Claim C10: the very first detector call (empty history, zero
`lastBeatTime`) reports no beat on any snapshot with non-negative
normalized values, since the rolling average then equals the current
energy. -/
theorem first_call_no_beat (data : List ℚ) (now : ℤ)
    (h : ∀ x ∈ data, 0 ≤ x) :
    (detectBeat data ⟨0, []⟩ now).1 = false := by
  have he : 0 ≤ currentEnergy data := by
    unfold currentEnergy averageRange mean
    apply div_nonneg
    · apply List.sum_nonneg
      intro x hx
      exact h x (List.mem_of_mem_drop (List.mem_of_mem_take hx))
    · positivity
  have hnc : ¬ (currentEnergy data > mean (pushHistory [] (currentEnergy data)) * 1.5 ∧
      now - (0 : ℤ) > minBeatInterval) := by
    rintro ⟨h1, -⟩
    have hp : pushHistory ([] : List ℚ) (currentEnergy data) = [currentEnergy data] := by
      simp [pushHistory]
    rw [hp] at h1
    simp only [mean, List.sum_cons, List.sum_nil, List.length_singleton, add_zero,
      Nat.cast_one, div_one] at h1
    linarith [he, h1]
  unfold detectBeat
  dsimp only
  rw [if_neg hnc]

theorem mean_replicate (n : ℕ) (c : ℚ) (hn : n ≠ 0) :
    mean (List.replicate n c) = c := by
  unfold mean
  rw [List.sum_replicate, List.length_replicate, nsmul_eq_mul]
  exact mul_div_cancel_left₀ c (by exact_mod_cast hn)

theorem getD_replicate_of_lt (i n : ℕ) (c : ℚ) (h : i < n) :
    (List.replicate n c).getD i 0 = c := by
  rw [List.getD_eq_getElem?_getD]
  simp [List.getElem?_replicate, h]

theorem averageRange_replicate (n s e : ℕ) (c : ℚ) (hs : s < n) (hse : s ≤ e) :
    averageRange (List.replicate n c) s e = c := by
  unfold averageRange
  rw [List.drop_replicate, List.take_replicate]
  apply mean_replicate
  omega

theorem findPeaks_replicate (n : ℕ) (c : ℚ) :
    findPeaks (List.replicate n c) = [] := by
  unfold findPeaks
  have hf : (List.range (List.replicate n c).length).filter (fun i =>
      decide (0 < i ∧ i + 1 < (List.replicate n c).length ∧
        (List.replicate n c).getD (i - 1) 0 < (List.replicate n c).getD i 0 ∧
        (List.replicate n c).getD (i + 1) 0 < (List.replicate n c).getD i 0 ∧
        (0.5 : ℚ) < (List.replicate n c).getD i 0)) = [] := by
    rw [List.filter_eq_nil_iff]
    intro i _
    simp only [decide_eq_true_eq, List.length_replicate, not_and]
    intro h0 hlen
    rw [getD_replicate_of_lt (i - 1) n c (by omega), getD_replicate_of_lt i n c (by omega)]
    intro hlt
    exact absurd hlt (lt_irrefl c)
  rw [hf]
  rfl

/-- Claim C5: on a snapshot of exactly 256 bins all holding the same byte
value b, extraction returns amplitude b/255, low, mid and high band
energies all equal to b/255, and an empty peaks list (a flat signal has no
strict local maxima). -/
theorem uniform_snapshot_metrics (b : ℕ) (hb : b ≤ 255) (pow15 : ℚ → ℚ)
    (st : BeatState) (now : ℤ) :
    (processAudioData pow15 (List.replicate 256 b) st now).1.metrics.amplitude = (b : ℚ) / 255 ∧
    (processAudioData pow15 (List.replicate 256 b) st now).1.metrics.lowFreq = (b : ℚ) / 255 ∧
    (processAudioData pow15 (List.replicate 256 b) st now).1.metrics.midFreq = (b : ℚ) / 255 ∧
    (processAudioData pow15 (List.replicate 256 b) st now).1.metrics.highFreq = (b : ℚ) / 255 ∧
    (processAudioData pow15 (List.replicate 256 b) st now).1.metrics.peaks = [] := by
  have hnorm : normalizeData (List.replicate 256 b) =
      List.replicate 256 ((b : ℚ) / 255) := by
    unfold normalizeData
    rw [List.map_replicate]
  unfold processAudioData
  dsimp only
  rw [hnorm]
  refine ⟨mean_replicate 256 _ (by norm_num), ?_, ?_, ?_, findPeaks_replicate 256 _⟩
  · exact averageRange_replicate 256 0 10 _ (by norm_num) (by norm_num)
  · exact averageRange_replicate 256 11 100 _ (by norm_num) (by norm_num)
  · exact averageRange_replicate 256 101 255 _ (by norm_num) (by norm_num)

theorem jsMod_add_int (x m : ℚ) (k : ℤ) (hm : m ≠ 0) :
    jsMod (x + m * (k : ℚ)) m = jsMod x m := by
  unfold jsMod
  have hq : (x + m * (k : ℚ)) / m = x / m + (k : ℚ) := by
    rw [add_div]
    congr 1
    rw [mul_comm, mul_div_assoc, div_self hm, mul_one]
  rw [hq, Int.floor_add_int]
  push_cast
  ring

theorem jsMod_jsMod_add (x c m : ℚ) (hm : m ≠ 0) :
    jsMod (jsMod x m + c) m = jsMod (x + c) m := by
  have h : jsMod x m + c = (x + c) + m * ((-⌊x / m⌋ : ℤ) : ℚ) := by
    unfold jsMod
    push_cast
    ring
  rw [h, jsMod_add_int _ _ _ hm]

theorem jsMod_nonneg (a m : ℚ) (hm : 0 < m) : 0 ≤ jsMod a m := by
  unfold jsMod
  have h1 : ((⌊a / m⌋ : ℤ) : ℚ) ≤ a / m := Int.floor_le _
  have h2 : m * ((⌊a / m⌋ : ℤ) : ℚ) ≤ m * (a / m) :=
    mul_le_mul_of_nonneg_left h1 hm.le
  have h3 : m * (a / m) = a := by field_simp
  linarith

theorem jsMod_lt (a m : ℚ) (hm : 0 < m) : jsMod a m < m := by
  unfold jsMod
  have h1 : a / m < (⌊a / m⌋ : ℚ) + 1 := Int.lt_floor_add_one _
  have h2 : m * (a / m) < m * ((⌊a / m⌋ : ℚ) + 1) := (mul_lt_mul_left hm).mpr h1
  have h3 : m * (a / m) = a := by field_simp
  nlinarith

theorem jsMod_eq_self (a m : ℚ) (h0 : 0 ≤ a) (hlt : a < m) : jsMod a m = a := by
  unfold jsMod
  have hm : 0 < m := lt_of_le_of_lt h0 hlt
  have hz : ⌊a / m⌋ = 0 := by
    rw [Int.floor_eq_zero_iff]
    exact ⟨div_nonneg h0 hm.le, (div_lt_one hm).mpr hlt⟩
  rw [hz]
  simp

theorem mapWithIndex_length {α β : Type} (f : ℕ → α → β) :
    ∀ (k : ℕ) (l : List α), (mapWithIndex f k l).length = l.length := by
  intro k l
  induction l generalizing k with
  | nil => rfl
  | cons a rest ih => simp [mapWithIndex, ih]

theorem mapWithIndex_getD {α : Type} (f : ℕ → α → α) (d : α) :
    ∀ (l : List α) (k i : ℕ), i < l.length →
      (mapWithIndex f k l).getD i d = f (k + i) (l.getD i d) := by
  intro l
  induction l with
  | nil => intro k i hi; simp at hi
  | cons a rest ih =>
    intro k i hi
    cases i with
    | zero => simp [mapWithIndex]
    | succ n =>
      simp only [mapWithIndex, List.getD_cons_succ]
      rw [ih (k + 1) n (by simpa using hi)]
      have hk : k + 1 + n = k + (n + 1) := by omega
      rw [hk]

theorem tickVertices_length (T : TrigOps) (isPlaying : Bool) (frame : ℕ)
    (p : Parameters) (m : AudioModulation) (vs : List Vertex) :
    (tickVertices T isPlaying frame p m vs).length = vs.length :=
  mapWithIndex_length _ 0 vs

theorem tickVertices_getD (T : TrigOps) (isPlaying : Bool) (frame : ℕ)
    (p : Parameters) (m : AudioModulation) (vs : List Vertex) (i : ℕ)
    (hi : i < vs.length) :
    (tickVertices T isPlaying frame p m vs).getD i v0 =
      tickVertex T isPlaying frame p m i (vs.getD i v0) := by
  unfold tickVertices
  rw [mapWithIndex_getD _ _ vs 0 i hi]
  rw [Nat.zero_add]

theorem tickVertex_hue (T : TrigOps) (isPlaying : Bool) (frame : ℕ)
    (p : Parameters) (m : AudioModulation) (i : ℕ) (v : Vertex) :
    (tickVertex T isPlaying frame p m i v).hue = jsMod (v.hue + p.colorSpeed) 360 :=
  rfl

theorem tick_iterate_hue (T : TrigOps) (isPlaying : Bool) (p : Parameters)
    (m : AudioModulation) :
    ∀ (N fr : ℕ) (vs : List Vertex) (i : ℕ), i < vs.length →
      0 ≤ (vs.getD i v0).hue → (vs.getD i v0).hue < 360 →
      (((tick T isPlaying p m)^[N] (fr, vs)).2.getD i v0).hue =
        jsMod ((vs.getD i v0).hue + (N : ℚ) * p.colorSpeed) 360 := by
  intro N
  induction N with
  | zero =>
    intro fr vs i hi h0 hlt
    simp only [Function.iterate_zero, id_eq, Nat.cast_zero, zero_mul, add_zero]
    exact (jsMod_eq_self _ _ h0 hlt).symm
  | succ n ih =>
    intro fr vs i hi h0 hlt
    rw [Function.iterate_succ_apply]
    have hstep : (tick T isPlaying p m) (fr, vs) =
        (fr + 1, tickVertices T isPlaying fr p m vs) := rfl
    rw [hstep]
    have hlen : i < (tickVertices T isPlaying fr p m vs).length := by
      rw [tickVertices_length]
      exact hi
    have hgd : (tickVertices T isPlaying fr p m vs).getD i v0 =
        tickVertex T isPlaying fr p m i (vs.getD i v0) :=
      tickVertices_getD T isPlaying fr p m vs i hi
    have h0n : 0 ≤ ((tickVertices T isPlaying fr p m vs).getD i v0).hue := by
      rw [hgd, tickVertex_hue]
      exact jsMod_nonneg _ _ (by norm_num)
    have hltn : ((tickVertices T isPlaying fr p m vs).getD i v0).hue < 360 := by
      rw [hgd, tickVertex_hue]
      exact jsMod_lt _ _ (by norm_num)
    rw [ih (fr + 1) (tickVertices T isPlaying fr p m vs) i hlen h0n hltn]
    rw [hgd, tickVertex_hue]
    rw [jsMod_jsMod_add _ _ _ (by norm_num)]
    congr 1
    push_cast
    ring

/-- Claim C6: for an initial hue in [0, 360) and a colorSpeed in the
slider range, the hue of a vertex after N motion ticks equals
(initialHue + N * colorSpeed) reduced modulo 360. -/
theorem hue_after_ticks (T : TrigOps) (isPlaying : Bool) (p : Parameters)
    (m : AudioModulation) (vs : List Vertex) (i fr N : ℕ)
    (hi : i < vs.length)
    (h0 : 0 ≤ (vs.getD i v0).hue) (hlt : (vs.getD i v0).hue < 360)
    (hc1 : 1 / 10 ≤ p.colorSpeed) (hc2 : p.colorSpeed ≤ 2) :
    (((tick T isPlaying p m)^[N] (fr, vs)).2.getD i v0).hue =
      jsMod ((vs.getD i v0).hue + (N : ℚ) * p.colorSpeed) 360 :=
  tick_iterate_hue T isPlaying p m N fr vs i hi h0 hlt

/-- Claim C7: on a motion tick with `isPlaying = false` the wave offset
contributed to every vertex is exactly (0, 0), so the new position is the
ring-anchor term plus the flow term only, for every waveIntensity,
intensityMod and current position. -/
theorem wave_off_when_not_playing (T : TrigOps) (frame : ℕ) (p : Parameters)
    (m : AudioModulation) (i : ℕ) (v : Vertex) (waveTime yy xx eI : ℚ) :
    waveX T false waveTime yy eI = 0 ∧
    waveY T false waveTime xx eI = 0 ∧
    (tickVertex T false frame p m i v).x =
      centerX T ((frame : ℚ) * 0.02 * (p.flowSpeed * m.speedMod))
          (p.patternSize * m.sizeMod) i +
        flowX T ((frame : ℚ) * 0.02 * (p.flowSpeed * m.speedMod)) v ∧
    (tickVertex T false frame p m i v).y =
      centerY T ((frame : ℚ) * 0.02 * (p.flowSpeed * m.speedMod))
          (p.patternSize * m.sizeMod) i +
        flowY T ((frame : ℚ) * 0.02 * (p.flowSpeed * m.speedMod)) v := by
  refine ⟨rfl, rfl, ?_, ?_⟩ <;>
    simp [tickVertex, waveX, waveY]

/-- Claim C9: a motion tick changes only position, phase and hue: the
velocity components, amplitude and frequency of every vertex are left
unchanged, the tick preserves the vertex count, and startup creates
exactly 24 vertices. -/
theorem tick_preserves_fields (T : TrigOps) (isPlaying : Bool) (frame : ℕ)
    (p : Parameters) (m : AudioModulation) (i : ℕ) (v : Vertex)
    (vs : List Vertex) (rand : ℕ → ℕ → ℚ) :
    (tickVertex T isPlaying frame p m i v).vx = v.vx ∧
    (tickVertex T isPlaying frame p m i v).vy = v.vy ∧
    (tickVertex T isPlaying frame p m i v).amplitude = v.amplitude ∧
    (tickVertex T isPlaying frame p m i v).frequency = v.frequency ∧
    (tickVertices T isPlaying frame p m vs).length = vs.length ∧
    (initVertices T rand).length = 24 := by
  refine ⟨rfl, rfl, rfl, rfl, tickVertices_length T isPlaying frame p m vs, ?_⟩
  simp [initVertices]

/-- Counterexample to claim C2 as stated: the vertices (0, 0) and (280, 0)
lie at Euclidean distance 280, strictly below 300, yet `getEdgeStyle`
returns no edge, because the opacity 1 - 280/300 = 1/15 does not exceed
the 0.1 filter threshold. -/
theorem edge_at_280_not_drawn :
    (0 : ℚ) ≤ 280 ∧
    (280 : ℚ) ^ 2 = distSq ⟨0, 0, 0, 0, 0, 0, 0, 0⟩ ⟨280, 0, 0, 0, 0, 0, 0, 0⟩ ∧
    (280 : ℚ) < 300 ∧
    getEdgeStyle ⟨0, 0, 0, 0, 0, 0, 0, 0⟩ ⟨280, 0, 0, 0, 0, 0, 0, 0⟩ 280 = none := by
  refine ⟨by norm_num, by norm_num [distSq], by norm_num, ?_⟩
  norm_num [getEdgeStyle, edgeOpacity]

theorem edgeOpacity_gt_iff (d : ℚ) : edgeOpacity d > 0.1 ↔ d < 270 := by
  unfold edgeOpacity
  constructor
  · intro h
    rcases lt_max_iff.mp h with h1 | h1
    · norm_num at h1
    · have h2 := (lt_min_iff.mp h1).2
      norm_num at h2 ⊢
      linarith
  · intro h
    rw [gt_iff_lt, lt_max_iff]
    right
    rw [lt_min_iff]
    constructor
    · norm_num
    · norm_num
      linarith

/-- Claim C2, amended: an edge between two vertices is drawn iff their
Euclidean distance is strictly below 270 (equivalently, iff the clamped
opacity exceeds the 0.1 filter threshold); at distance exactly 300 the
opacity is 0 and no edge is drawn, and at distance 0 the opacity is 1 and
the stroke width is 4. -/
theorem edge_drawn_iff (v1 v2 : Vertex) (d : ℚ) (hd : 0 ≤ d)
    (hdist : d ^ 2 = distSq v1 v2) :
    ((getEdgeStyle v1 v2 d).isSome = true ↔ d < 270) ∧
    edgeOpacity 300 = 0 ∧
    getEdgeStyle v1 v2 300 = none ∧
    edgeOpacity 0 = 1 ∧
    (getEdgeStyle v1 v2 0).map EdgeStyle.strokeWidth = some 4 := by
  refine ⟨?_, by norm_num [edgeOpacity], by norm_num [getEdgeStyle, edgeOpacity],
    by norm_num [edgeOpacity], by norm_num [getEdgeStyle, edgeOpacity]⟩
  unfold getEdgeStyle
  dsimp only
  split_ifs with h
  · simp only [Option.isSome_some, true_iff]
    exact (edgeOpacity_gt_iff d).mp h
  · simp only [Option.isSome_none, Bool.false_eq_true, false_iff, not_lt]
    by_contra hcon
    push_neg at hcon
    exact h ((edgeOpacity_gt_iff d).mpr hcon)

/-- Claim C8 evidence: on the empty snapshot the extractor does not fail:
it computes the amplitude as the mean of an empty list, which is `0 / 0`,
`NaN` in JS floats (`meanJs` returns `none`), and still returns a fully
populated result object instead of raising an InvalidInput error. -/
theorem empty_snapshot_no_error :
    meanJs (normalizeData []) = none ∧
    (processAudioData id [] ⟨0, []⟩ 0).1.metrics.amplitude = mean [] ∧
    (processAudioData id [] ⟨0, []⟩ 0).1.metrics.beatDetected = false := by
  refine ⟨rfl, rfl, ?_⟩
  norm_num [processAudioData, detectBeat, currentEnergy, averageRange, mean,
    pushHistory, normalizeData, minBeatInterval]

/-- Witness for `beatHistory_bounded` at a full 8-entry history and one
further call. -/
theorem beatHistory_bounded_witness :
    (BeatState.mk 0 (List.replicate 8 0)).beatHistory.length ≤ 8 ∧
    ((∀ s ∈ runStates ⟨0, List.replicate 8 0⟩ [([1], 0)], s.beatHistory.length ≤ 8) ∧
      ∀ e, pushHistory (BeatState.mk 0 (List.replicate 8 0)).beatHistory e =
        if (BeatState.mk 0 (List.replicate 8 0)).beatHistory.length = 8
        then ((BeatState.mk 0 (List.replicate 8 0)).beatHistory ++ [e]).tail
        else (BeatState.mk 0 (List.replicate 8 0)).beatHistory ++ [e]) :=
  ⟨by norm_num, beatHistory_bounded ⟨0, List.replicate 8 0⟩ [([1], 0)] (by norm_num)⟩

/-- Witness for `beat_debounce`: two energy spikes at t = 0 and t = 300
both report a beat, and indeed differ by more than 250 ms. -/
theorem beat_debounce_witness :
    (([([(1 : ℚ) / 2], (0 : ℤ)), ([2], 300)].map Prod.snd).Pairwise (· ≤ ·)) ∧
    0 < 1 ∧ 1 < [([(1 : ℚ) / 2], (0 : ℤ)), ([2], 300)].length ∧
    ((detectRun ⟨-1000, [1 / 10]⟩ [([(1 : ℚ) / 2], (0 : ℤ)), ([2], 300)]).getD 0 dB).1 = true ∧
    ((detectRun ⟨-1000, [1 / 10]⟩ [([(1 : ℚ) / 2], (0 : ℤ)), ([2], 300)]).getD 1 dB).1 = true ∧
    ([([(1 : ℚ) / 2], (0 : ℤ)), ([2], 300)].getD 1 dC).2 -
      ([([(1 : ℚ) / 2], (0 : ℤ)), ([2], 300)].getD 0 dC).2 > 250 := by
  have h1 : (([([(1 : ℚ) / 2], (0 : ℤ)), ([2], 300)].map Prod.snd).Pairwise (· ≤ ·)) := by
    norm_num [List.pairwise_cons]
  have h4 : ((detectRun ⟨-1000, [1 / 10]⟩
      [([(1 : ℚ) / 2], (0 : ℤ)), ([2], 300)]).getD 0 dB).1 = true := by
    norm_num [detectRun, detectBeat, currentEnergy, averageRange, mean, pushHistory,
      minBeatInterval]
  have h5 : ((detectRun ⟨-1000, [1 / 10]⟩
      [([(1 : ℚ) / 2], (0 : ℤ)), ([2], 300)]).getD 1 dB).1 = true := by
    norm_num [detectRun, detectBeat, currentEnergy, averageRange, mean, pushHistory,
      minBeatInterval]
  exact ⟨h1, by norm_num, by norm_num,
    h4, h5,
    beat_debounce ⟨-1000, [1 / 10]⟩ [([(1 : ℚ) / 2], (0 : ℤ)), ([2], 300)] h1 0 1
      (by norm_num) (by norm_num) h4 h5⟩

/-- Witness for `uniform_snapshot_metrics` at byte value 7. -/
theorem uniform_snapshot_metrics_witness :
    (7 : ℕ) ≤ 255 ∧
    ((processAudioData id (List.replicate 256 7) ⟨0, []⟩ 0).1.metrics.amplitude =
        ((7 : ℕ) : ℚ) / 255 ∧
      (processAudioData id (List.replicate 256 7) ⟨0, []⟩ 0).1.metrics.lowFreq =
        ((7 : ℕ) : ℚ) / 255 ∧
      (processAudioData id (List.replicate 256 7) ⟨0, []⟩ 0).1.metrics.midFreq =
        ((7 : ℕ) : ℚ) / 255 ∧
      (processAudioData id (List.replicate 256 7) ⟨0, []⟩ 0).1.metrics.highFreq =
        ((7 : ℕ) : ℚ) / 255 ∧
      (processAudioData id (List.replicate 256 7) ⟨0, []⟩ 0).1.metrics.peaks = []) :=
  ⟨by norm_num, uniform_snapshot_metrics 7 (by norm_num) id ⟨0, []⟩ 0⟩

/-- Witness for `hue_after_ticks`: one vertex with hue 0, colorSpeed 1/2,
two ticks. -/
theorem hue_after_ticks_witness :
    0 < [v0].length ∧
    0 ≤ ([v0].getD 0 v0).hue ∧ ([v0].getD 0 v0).hue < 360 ∧
    1 / 10 ≤ (Parameters.mk 1 (1 / 2) (7 / 10) 1).colorSpeed ∧
    (Parameters.mk 1 (1 / 2) (7 / 10) 1).colorSpeed ≤ 2 ∧
    (((tick ⟨id, id, 0⟩ false (Parameters.mk 1 (1 / 2) (7 / 10) 1) ⟨1, 1, 1⟩)^[2]
        (0, [v0])).2.getD 0 v0).hue =
      jsMod (([v0].getD 0 v0).hue + ((2 : ℕ) : ℚ) *
        (Parameters.mk 1 (1 / 2) (7 / 10) 1).colorSpeed) 360 :=
  ⟨by norm_num, by norm_num [v0], by norm_num [v0], by norm_num, by norm_num,
    hue_after_ticks ⟨id, id, 0⟩ false (Parameters.mk 1 (1 / 2) (7 / 10) 1) ⟨1, 1, 1⟩
      [v0] 0 0 2 (by norm_num) (by norm_num [v0]) (by norm_num [v0])
      (by norm_num) (by norm_num)⟩

/-- Witness for `edge_drawn_iff` at vertices (0,0) and (100,0), distance
100. -/
theorem edge_drawn_iff_witness :
    (0 : ℚ) ≤ 100 ∧
    (100 : ℚ) ^ 2 = distSq v0 ⟨100, 0, 0, 0, 0, 0, 0, 0⟩ ∧
    (((getEdgeStyle v0 ⟨100, 0, 0, 0, 0, 0, 0, 0⟩ 100).isSome = true ↔ (100 : ℚ) < 270) ∧
      edgeOpacity 300 = 0 ∧
      getEdgeStyle v0 ⟨100, 0, 0, 0, 0, 0, 0, 0⟩ 300 = none ∧
      edgeOpacity 0 = 1 ∧
      (getEdgeStyle v0 ⟨100, 0, 0, 0, 0, 0, 0, 0⟩ 0).map EdgeStyle.strokeWidth = some 4) :=
  ⟨by norm_num, by norm_num [distSq, v0],
    edge_drawn_iff v0 ⟨100, 0, 0, 0, 0, 0, 0, 0⟩ 100 (by norm_num)
      (by norm_num [distSq, v0])⟩

/-- Witness for `first_call_no_beat` on the snapshot [1/2] at time 1000. -/
theorem first_call_no_beat_witness :
    (∀ x ∈ [(1 : ℚ) / 2], 0 ≤ x) ∧
    (detectBeat [(1 : ℚ) / 2] ⟨0, []⟩ 1000).1 = false :=
  ⟨by norm_num, first_call_no_beat [(1 : ℚ) / 2] 1000 (by norm_num)⟩
